import Mathlib

/-
Verification of the notify-debouncer-mini debouncer
(src/notify-debouncer-mini/src/lib.rs).

The embedding models:
  * `Instant` and `Duration` as `Nat` (nanoseconds on a monotone clock);
    `i.elapsed()` at time `now` is `now - i` (truncated subtraction, which
    matches Rust's saturating behaviour on a monotone clock),
  * `PathBuf` as `String`, `notify::Error` as `String`,
  * the `HashMap<PathBuf, EventData>` as an association list
    `List (Path × EventData)` with unique keys; iteration order of
    `drain()` is unspecified in Rust, so the list order stands in for it,
  * stateful `&mut self` methods as functions returning the new state,
  * the background ticker loop of `new_debouncer_opt` as a labelled
    transition system (`Step`), with consumer invocations as labels.
-/

namespace NotifyDebouncerMini

abbrev Path := String

abbrev Err := String

/-- A debounced event kind (enum `DebouncedEventKind`). -/
inductive DebouncedEventKind where
  | any
  | anyContinuous
  deriving DecidableEq, Repr

/-- A debounced event (struct `DebouncedEvent`). -/
structure DebouncedEvent where
  path : Path
  kind : DebouncedEventKind
  deriving DecidableEq, Repr

/-- Constructor `DebouncedEvent::new`. -/
def DebouncedEvent.new (path : Path) (kind : DebouncedEventKind) : DebouncedEvent :=
  { path := path, kind := kind }

/-- Deduplicate event data entry (struct `EventData`): insertion time and
last update time. -/
structure EventData where
  insert : Nat
  update : Nat
  deriving DecidableEq, Repr

/-- Constructor `EventData::new_any`: both timestamps are the current instant. -/
def EventData.new_any (now : Nat) : EventData :=
  { insert := now, update := now }

/-- Struct `DebounceDataInner`: the path cache `d`, the quiet timeout, and
the buffered error queue `e`. -/
structure DebounceDataInner where
  d : List (Path × EventData)
  timeout : Nat
  e : List Err
  deriving DecidableEq, Repr

/-- The result type `DebouncedEvents = Result<Vec<DebouncedEvent>, Vec<Error>>`. -/
abbrev DebouncedEvents := Except (List Err) (List DebouncedEvent)

/-- The loop body of `DebounceDataInner::debounced_events` over the drained
entries: emit `Any` and drop the entry when the update timestamp is stale,
emit `AnyContinuous` and keep the entry when only the insert timestamp is
stale, otherwise keep the entry silently. Returns (emitted, retained). -/
def debouncedEventsList (now timeout : Nat) :
    List (Path × EventData) → List DebouncedEvent × List (Path × EventData)
  | [] => ([], [])
  | (k, v) :: rest =>
    let r := debouncedEventsList now timeout rest
    if timeout ≤ now - v.update then
      (DebouncedEvent.new k DebouncedEventKind.any :: r.1, r.2)
    else if timeout ≤ now - v.insert then
      (DebouncedEvent.new k DebouncedEventKind.anyContinuous :: r.1, (k, v) :: r.2)
    else
      (r.1, (k, v) :: r.2)

/-- Method `DebounceDataInner::debounced_events`: drain the cache, emit the
debounced events, and store back the retained entries. -/
def DebounceDataInner.debounced_events (st : DebounceDataInner) (now : Nat) :
    List DebouncedEvent × DebounceDataInner :=
  let r := debouncedEventsList now st.timeout st.d
  (r.1, { st with d := r.2 })

/-- Method `DebounceDataInner::errors`: swap out and return the error queue. -/
def DebounceDataInner.errors (st : DebounceDataInner) : List Err × DebounceDataInner :=
  (st.e, { st with e := [] })

/-- Method `DebounceDataInner::add_error`: push one error onto the queue. -/
def DebounceDataInner.add_error (st : DebounceDataInner) (err : Err) : DebounceDataInner :=
  { st with e := st.e ++ [err] }

/-- Lookup of a path in the cache (`HashMap::get_mut` hit/miss). -/
def lookupPath (p : Path) : List (Path × EventData) → Option EventData
  | [] => none
  | (k, v) :: rest => if k = p then some v else lookupPath p rest

/-- In-place refresh through `HashMap::get_mut`: set the update timestamp
of the (unique) entry with the given key. -/
def refreshList (now : Nat) (p : Path) :
    List (Path × EventData) → List (Path × EventData)
  | [] => []
  | (k, v) :: rest =>
    if k = p then (k, { v with update := now }) :: rest
    else (k, v) :: refreshList now p rest

/-- One iteration of the loop in `DebounceDataInner::add_event`: refresh the
update timestamp of an existing entry, or insert a fresh `new_any` entry. -/
def addPath (now : Nat) (d : List (Path × EventData)) (p : Path) :
    List (Path × EventData) :=
  match lookupPath p d with
  | some _ => refreshList now p d
  | none => d ++ [(p, EventData.new_any now)]

/-- Method `DebounceDataInner::add_event`: process every path of the raw
event in order. -/
def DebounceDataInner.add_event (st : DebounceDataInner) (now : Nat)
    (paths : List Path) : DebounceDataInner :=
  { st with d := paths.foldl (addPath now) st.d }

/-- The timestamp invariant of the cache: every entry was inserted no later
than it was last updated. -/
def StoreInv (d : List (Path × EventData)) : Prop :=
  ∀ kv ∈ d, kv.2.insert ≤ kv.2.update

/-- `Duration::checked_div`: `None` exactly when the divisor is zero. -/
def checked_div (d r : Nat) : Option Nat :=
  if r = 0 then none else some (d / r)

/-- The constant `tick_div` of `new_debouncer_opt`. -/
def tick_div : Nat := 4

/-- The tick-rate computation of `new_debouncer_opt`: a supplied tick rate is
rejected when it exceeds the timeout; an omitted one defaults to
`timeout.checked_div(tick_div)`. -/
def computeTick (timeout : Nat) (tick_rate : Option Nat) : Except Err Nat :=
  match tick_rate with
  | some v =>
    if timeout < v then
      Except.error "Invalid tick_rate, tick rate greater than timeout"
    else
      Except.ok v
  | none =>
    match checked_div timeout tick_div with
    | some t => Except.ok t
    | none => Except.error "Failed to calculate tick as timeout divided by tick_div"

/-- The debouncer value built by `new_debouncer_opt` on success: the stop
flag starts cleared, the ticker thread is spawned, and the shared store
carries the configured timeout. -/
structure Debouncer where
  stop : Bool
  threadSpawned : Bool
  tick : Nat
  store : DebounceDataInner
  deriving DecidableEq, Repr

/-- Function `new_debouncer_opt` (configuration part): validate the tick
rate; on failure return the configuration error before any thread is
spawned, on success build the debouncer with a spawned ticker thread. -/
def new_debouncer_opt (timeout : Nat) (tick_rate : Option Nat) :
    Except Err Debouncer :=
  match computeTick timeout tick_rate with
  | Except.error msg => Except.error msg
  | Except.ok tick =>
    Except.ok
      { stop := false
        threadSpawned := true
        tick := tick
        store := { d := [], timeout := timeout, e := [] } }

/-- The dispatch at the end of each ticker-loop iteration: the event batch
is handed to the consumer only when non-empty, then the error batch only
when non-empty, as two separate calls. -/
def tickDispatch (evs : List DebouncedEvent) (ers : List Err) :
    List DebouncedEvents :=
  (if 0 < evs.length then [Except.ok evs] else []) ++
    (if 0 < ers.length then [Except.error ers] else [])

/-- One full tick of the loop body: take the debounced events and the
buffered errors under the lock, then dispatch. Returns the list of consumer
invocations of this tick and the new store. -/
def tickOnce (now : Nat) (st : DebounceDataInner) :
    List DebouncedEvents × DebounceDataInner :=
  let r1 := st.debounced_events now
  let r2 := r1.2.errors
  (tickDispatch r1.1 r2.1, r2.2)

/-- Control position of the ticker thread inside its loop. -/
inductive Phase where
  | checking
  | sleeping
  | exited
  deriving DecidableEq, Repr

/-- Shared state of the debouncer: the stop flag, the ticker thread's
control position, and the shared store. -/
structure SysState where
  stop : Bool
  phase : Phase
  store : DebounceDataInner
  deriving DecidableEq, Repr

/-- Transitions of the ticker thread, labelled by the consumer invocations
they perform. `exit` is the `break` on an observed stop flag, `go` passes
the check and goes to sleep, `wake` wakes up at some instant, computes the
batches under the lock, and dispatches them. No transition leaves
`Phase.exited`. -/
inductive Step : SysState → List DebouncedEvents → SysState → Prop where
  | exit (st : DebounceDataInner) :
      Step { stop := true, phase := Phase.checking, store := st } []
        { stop := true, phase := Phase.exited, store := st }
  | go (st : DebounceDataInner) :
      Step { stop := false, phase := Phase.checking, store := st } []
        { stop := false, phase := Phase.sleeping, store := st }
  | wake (f : Bool) (st : DebounceDataInner) (now : Nat) :
      Step { stop := f, phase := Phase.sleeping, store := st }
        (tickOnce now st).1
        { stop := f, phase := Phase.checking, store := (tickOnce now st).2 }

/-- Method `Debouncer::set_stop`: store `true` into the shared stop flag. -/
def set_stop (s : SysState) : SysState := { s with stop := true }

/-- Method `Debouncer::stop_nonblocking`: just `set_stop`, no join. -/
def stop_nonblocking (s : SysState) : SysState := set_stop s

/-- The `Drop` impl of `Debouncer`: just `set_stop`, no join. -/
def drop_debouncer (s : SysState) : SysState := set_stop s

/-! ### Lookup lemmas for the cache -/

theorem lookupPath_append_of_some (p : Path) (d l : List (Path × EventData))
    (v : EventData) (h : lookupPath p d = some v) :
    lookupPath p (d ++ l) = some v := by
  induction d with
  | nil => simp [lookupPath] at h
  | cons kv rest ih =>
    obtain ⟨k, w⟩ := kv
    by_cases hk : k = p
    · simp [lookupPath, hk] at h ⊢
      exact h
    · simp [lookupPath, hk] at h ⊢
      exact ih h

theorem lookupPath_append_of_none (p : Path) (d l : List (Path × EventData))
    (h : lookupPath p d = none) :
    lookupPath p (d ++ l) = lookupPath p l := by
  induction d with
  | nil => rfl
  | cons kv rest ih =>
    obtain ⟨k, w⟩ := kv
    by_cases hk : k = p
    · simp [lookupPath, hk] at h
    · simp [lookupPath, hk] at h ⊢
      exact ih h

theorem lookupPath_refreshList (now : Nat) (p q : Path)
    (d : List (Path × EventData)) :
    lookupPath q (refreshList now p d) =
      if q = p then
        (lookupPath q d).map (fun v => { v with update := now })
      else lookupPath q d := by
  induction d with
  | nil => by_cases h : q = p <;> simp [refreshList, lookupPath, h]
  | cons kv rest ih =>
    obtain ⟨k, w⟩ := kv
    by_cases hkp : k = p
    · subst hkp
      by_cases hkq : k = q
      · subst hkq
        simp [refreshList, lookupPath]
      · have hqk : ¬ q = k := fun hh => hkq hh.symm
        simp [refreshList, lookupPath, hkq, hqk]
    · by_cases hkq : k = q
      · subst hkq
        simp [refreshList, lookupPath, hkp]
      · have hqk : ¬ q = k := fun hh => hkq hh.symm
        simp [refreshList, lookupPath, hkp, hkq, ih]

theorem lookupPath_addPath_self (now : Nat) (d : List (Path × EventData))
    (p : Path) :
    lookupPath p (addPath now d p) =
      some { insert := (match lookupPath p d with
                        | some v => v.insert
                        | none => now),
             update := now } := by
  cases h : lookupPath p d with
  | some v =>
    rw [addPath, h]
    rw [lookupPath_refreshList now p p d]
    simp [h]
  | none =>
    rw [addPath, h]
    rw [lookupPath_append_of_none p d _ h]
    simp [lookupPath, EventData.new_any]

theorem lookupPath_addPath_other (now : Nat) (d : List (Path × EventData))
    (p q : Path) (hq : q ≠ p) :
    lookupPath q (addPath now d p) = lookupPath q d := by
  cases h : lookupPath p d with
  | some v =>
    rw [addPath, h, lookupPath_refreshList now p q d]
    simp [hq]
  | none =>
    rw [addPath, h]
    cases hq2 : lookupPath q d with
    | some w => exact lookupPath_append_of_some q d _ w hq2
    | none =>
      rw [lookupPath_append_of_none q d _ hq2]
      have hpq : ¬ p = q := fun hh => hq hh.symm
      simp [lookupPath, hpq]

theorem lookupPath_foldl_not_mem (now : Nat) (paths : List Path)
    (d : List (Path × EventData)) (q : Path) (hq : q ∉ paths) :
    lookupPath q (paths.foldl (addPath now) d) = lookupPath q d := by
  induction paths generalizing d with
  | nil => rfl
  | cons p t ih =>
    simp only [List.mem_cons, not_or] at hq
    simp only [List.foldl_cons]
    rw [ih _ hq.2, lookupPath_addPath_other now d p q hq.1]

theorem lookupPath_foldl_mem (now : Nat) (paths : List Path)
    (d : List (Path × EventData)) (p : Path) (hp : p ∈ paths) :
    lookupPath p (paths.foldl (addPath now) d) =
      some { insert := (match lookupPath p d with
                        | some v => v.insert
                        | none => now),
             update := now } := by
  induction paths generalizing d with
  | nil => simp at hp
  | cons q t ih =>
    simp only [List.foldl_cons]
    by_cases hpq : p = q
    · subst hpq
      by_cases hpt : p ∈ t
      · rw [ih _ hpt, lookupPath_addPath_self now d p]
      · rw [lookupPath_foldl_not_mem now t _ p hpt, lookupPath_addPath_self now d p]
    · have hpt : p ∈ t := by
        rcases List.mem_cons.mp hp with h | h
        · exact absurd h hpq
        · exact h
      rw [ih _ hpt, lookupPath_addPath_other now d q p hpq]

/-! ### Structural lemmas for debounced_events -/

theorem debouncedEventsList_retained_sublist (now t : Nat)
    (l : List (Path × EventData)) :
    List.Sublist (debouncedEventsList now t l).2 l := by
  induction l with
  | nil => simp [debouncedEventsList]
  | cons kv rest ih =>
    obtain ⟨k, v⟩ := kv
    by_cases h1 : t ≤ now - v.update
    · simp only [debouncedEventsList, if_pos h1]
      exact ih.cons _
    · by_cases h2 : t ≤ now - v.insert
      · simp only [debouncedEventsList, if_neg h1, if_pos h2]
        exact ih.cons₂ _
      · simp only [debouncedEventsList, if_neg h1, if_neg h2]
        exact ih.cons₂ _

theorem debouncedEventsList_emitted_sublist (now t : Nat)
    (l : List (Path × EventData)) :
    List.Sublist ((debouncedEventsList now t l).1.map DebouncedEvent.path)
      (l.map Prod.fst) := by
  induction l with
  | nil => simp [debouncedEventsList]
  | cons kv rest ih =>
    obtain ⟨k, v⟩ := kv
    by_cases h1 : t ≤ now - v.update
    · simp only [debouncedEventsList, if_pos h1, List.map_cons]
      exact ih.cons₂ _
    · by_cases h2 : t ≤ now - v.insert
      · simp only [debouncedEventsList, if_neg h1, if_pos h2, List.map_cons]
        exact ih.cons₂ _
      · simp only [debouncedEventsList, if_neg h1, if_neg h2, List.map_cons]
        exact ih.cons _

theorem debouncedEventsList_mem_cases (now t : Nat)
    (l : List (Path × EventData)) (hnodup : (l.map Prod.fst).Nodup)
    (p : Path) (v : EventData) (hmem : (p, v) ∈ l) :
    (t ≤ now - v.update →
       DebouncedEvent.new p DebouncedEventKind.any ∈ (debouncedEventsList now t l).1 ∧
       p ∉ ((debouncedEventsList now t l).2.map Prod.fst)) ∧
    (¬ t ≤ now - v.update → t ≤ now - v.insert →
       DebouncedEvent.new p DebouncedEventKind.anyContinuous ∈
           (debouncedEventsList now t l).1 ∧
       (p, v) ∈ (debouncedEventsList now t l).2) ∧
    (¬ t ≤ now - v.update → ¬ t ≤ now - v.insert →
       (∀ ev ∈ (debouncedEventsList now t l).1, ev.path ≠ p) ∧
       (p, v) ∈ (debouncedEventsList now t l).2) := by
  induction l with
  | nil => simp at hmem
  | cons kv rest ih =>
    obtain ⟨k, w⟩ := kv
    simp only [List.map_cons, List.nodup_cons] at hnodup
    obtain ⟨hknot, hrest⟩ := hnodup
    rcases List.mem_cons.mp hmem with heq | hmemr
    · -- the entry under scrutiny is the head
      obtain ⟨hp, hv⟩ := Prod.mk.injEq .. ▸ heq
      subst hp
      subst hv
      refine ⟨fun h1 => ?_, fun h1 h2 => ?_, fun h1 h2 => ?_⟩
      · simp only [debouncedEventsList, if_pos h1]
        refine ⟨List.mem_cons_self _ _, fun hc => ?_⟩
        have hsub :
            List.Sublist ((debouncedEventsList now t rest).2.map Prod.fst)
              (rest.map Prod.fst) :=
          (debouncedEventsList_retained_sublist now t rest).map _
        exact hknot (hsub.subset hc)
      · simp only [debouncedEventsList, if_neg h1, if_pos h2]
        exact ⟨List.mem_cons_self _ _, List.mem_cons_self _ _⟩
      · simp only [debouncedEventsList, if_neg h1, if_neg h2]
        refine ⟨fun ev hev => ?_, List.mem_cons_self _ _⟩
        have hsub :
            List.Sublist ((debouncedEventsList now t rest).1.map DebouncedEvent.path)
              (rest.map Prod.fst) :=
          debouncedEventsList_emitted_sublist now t rest
        intro hpath
        exact hknot (hpath ▸ hsub.subset (List.mem_map_of_mem _ hev))
    · -- the entry under scrutiny is in the tail
      have hpk : p ≠ k := by
        intro hpk
        exact hknot (hpk ▸ List.mem_map_of_mem Prod.fst hmemr)
      have ihr := ih hrest hmemr
      by_cases h1 : t ≤ now - w.update
      · simp only [debouncedEventsList, if_pos h1]
        refine ⟨fun hv1 => ⟨List.mem_cons_of_mem _ (ihr.1 hv1).1, (ihr.1 hv1).2⟩,
          fun hv1 hv2 => ⟨List.mem_cons_of_mem _ (ihr.2.1 hv1 hv2).1,
            (ihr.2.1 hv1 hv2).2⟩,
          fun hv1 hv2 => ⟨fun ev hev => ?_, (ihr.2.2 hv1 hv2).2⟩⟩
        rcases List.mem_cons.mp hev with hevh | hevr
        · subst hevh
          simpa [DebouncedEvent.new] using hpk.symm
        · exact (ihr.2.2 hv1 hv2).1 ev hevr
      · by_cases h2 : t ≤ now - w.insert
        · simp only [debouncedEventsList, if_neg h1, if_pos h2]
          refine ⟨fun hv1 => ⟨List.mem_cons_of_mem _ (ihr.1 hv1).1, fun hc => ?_⟩,
            fun hv1 hv2 => ⟨List.mem_cons_of_mem _ (ihr.2.1 hv1 hv2).1,
              List.mem_cons_of_mem _ (ihr.2.1 hv1 hv2).2⟩,
            fun hv1 hv2 => ⟨fun ev hev => ?_,
              List.mem_cons_of_mem _ (ihr.2.2 hv1 hv2).2⟩⟩
          · simp only [List.map_cons, List.mem_cons] at hc
            rcases hc with hch | hcr
            · exact hpk hch
            · exact (ihr.1 hv1).2 hcr
          · rcases List.mem_cons.mp hev with hevh | hevr
            · subst hevh
              simpa [DebouncedEvent.new] using hpk.symm
            · exact (ihr.2.2 hv1 hv2).1 ev hevr
        · simp only [debouncedEventsList, if_neg h1, if_neg h2]
          refine ⟨fun hv1 => ⟨(ihr.1 hv1).1, fun hc => ?_⟩,
            fun hv1 hv2 => ⟨(ihr.2.1 hv1 hv2).1,
              List.mem_cons_of_mem _ (ihr.2.1 hv1 hv2).2⟩,
            fun hv1 hv2 => ⟨(ihr.2.2 hv1 hv2).1,
              List.mem_cons_of_mem _ (ihr.2.2 hv1 hv2).2⟩⟩
          simp only [List.map_cons, List.mem_cons] at hc
          rcases hc with hch | hcr
          · exact hpk hch
          · exact (ihr.1 hv1).2 hcr

/-! ### Membership lemmas for add_event -/

theorem mem_refreshList (now : Nat) (p : Path) (d : List (Path × EventData))
    (kv' : Path × EventData) (h : kv' ∈ refreshList now p d) :
    ∃ kv ∈ d, kv' = kv ∨ kv' = (kv.1, { kv.2 with update := now }) := by
  induction d with
  | nil => simp [refreshList] at h
  | cons kv rest ih =>
    obtain ⟨k, w⟩ := kv
    by_cases hk : k = p
    · simp only [refreshList, if_pos hk] at h
      rcases List.mem_cons.mp h with hh | hh
      · exact ⟨(k, w), List.mem_cons_self _ _, Or.inr hh⟩
      · exact ⟨kv', List.mem_cons_of_mem _ hh, Or.inl rfl⟩
    · simp only [refreshList, if_neg hk] at h
      rcases List.mem_cons.mp h with hh | hh
      · exact ⟨(k, w), List.mem_cons_self _ _, Or.inl hh⟩
      · obtain ⟨kv0, hkv0, hor⟩ := ih hh
        exact ⟨kv0, List.mem_cons_of_mem _ hkv0, hor⟩

theorem mem_addPath (now : Nat) (d : List (Path × EventData)) (p : Path)
    (kv' : Path × EventData) (h : kv' ∈ addPath now d p) :
    (∃ kv ∈ d, kv' = kv ∨ kv' = (kv.1, { kv.2 with update := now })) ∨
      kv' = (p, EventData.new_any now) := by
  rw [addPath] at h
  cases hl : lookupPath p d with
  | some v =>
    rw [hl] at h
    exact Or.inl (mem_refreshList now p d kv' h)
  | none =>
    rw [hl] at h
    rcases List.mem_append.mp h with hh | hh
    · exact Or.inl ⟨kv', hh, Or.inl rfl⟩
    · simp at hh
      exact Or.inr (by simp [hh])

theorem foldl_addPath_bounded (now : Nat) (paths : List Path)
    (d : List (Path × EventData))
    (h : ∀ kv ∈ d, kv.2.insert ≤ kv.2.update ∧ kv.2.insert ≤ now) :
    ∀ kv ∈ paths.foldl (addPath now) d,
      kv.2.insert ≤ kv.2.update ∧ kv.2.insert ≤ now := by
  induction paths generalizing d with
  | nil => exact h
  | cons p t ih =>
    simp only [List.foldl_cons]
    refine ih (addPath now d p) ?_
    intro kv hkv
    rcases mem_addPath now d p kv hkv with ⟨kv0, hkv0, hor⟩ | hnew
    · rcases hor with hor | hor
      · exact hor ▸ h kv0 hkv0
      · have h0 := h kv0 hkv0
        subst hor
        exact ⟨h0.2, h0.2⟩
    · subst hnew
      simp [EventData.new_any]

/-! ### Claim theorems -/

/-- C1: for every entry `(p, v)` present in the store when
`debounced_events` is called, exactly one of three outcomes happens: if
`now - v.update ≥ timeout`, a `DebouncedEvent p Any` is emitted and the
entry is removed; otherwise if `now - v.insert ≥ timeout`, a
`DebouncedEvent p AnyContinuous` is emitted and the entry is retained with
both timestamps unchanged; otherwise nothing is emitted for `p` and the
entry is retained unchanged. Every path present at call time is evaluated
exactly once, so each path occurs at most once in the returned list. -/
theorem debounced_events_spec (st : DebounceDataInner) (now : Nat)
    (hnodup : (st.d.map Prod.fst).Nodup) (p : Path) (v : EventData)
    (hmem : (p, v) ∈ st.d) :
    ((st.timeout ≤ now - v.update →
        DebouncedEvent.new p DebouncedEventKind.any ∈ (st.debounced_events now).1 ∧
        p ∉ (((st.debounced_events now).2.d).map Prod.fst)) ∧
     (¬ st.timeout ≤ now - v.update → st.timeout ≤ now - v.insert →
        DebouncedEvent.new p DebouncedEventKind.anyContinuous ∈
            (st.debounced_events now).1 ∧
        (p, v) ∈ (st.debounced_events now).2.d) ∧
     (¬ st.timeout ≤ now - v.update → ¬ st.timeout ≤ now - v.insert →
        (∀ ev ∈ (st.debounced_events now).1, ev.path ≠ p) ∧
        (p, v) ∈ (st.debounced_events now).2.d)) ∧
    ((st.debounced_events now).1.map DebouncedEvent.path).Nodup := by
  have h := debouncedEventsList_mem_cases now st.timeout st.d hnodup p v hmem
  have hsub := debouncedEventsList_emitted_sublist now st.timeout st.d
  exact ⟨h, hsub.nodup hnodup⟩

/-- Closed-instance check of `debounced_events_spec`: timeout 4 at instant 8
on a store holding a quiet path "a", a continuously active path "b", and a
fresh path "c". -/
theorem debounced_events_spec_witness :
    (DebouncedEvent.new "a" DebouncedEventKind.any ∈
        ((⟨[("a", ⟨0, 0⟩), ("b", ⟨0, 5⟩), ("c", ⟨6, 6⟩)], 4, []⟩ :
            DebounceDataInner).debounced_events 8).1 ∧
      "a" ∉ ((((⟨[("a", ⟨0, 0⟩), ("b", ⟨0, 5⟩), ("c", ⟨6, 6⟩)], 4, []⟩ :
            DebounceDataInner).debounced_events 8).2.d).map Prod.fst)) ∧
    (DebouncedEvent.new "b" DebouncedEventKind.anyContinuous ∈
        ((⟨[("a", ⟨0, 0⟩), ("b", ⟨0, 5⟩), ("c", ⟨6, 6⟩)], 4, []⟩ :
            DebounceDataInner).debounced_events 8).1 ∧
      ("b", (⟨0, 5⟩ : EventData)) ∈
        ((⟨[("a", ⟨0, 0⟩), ("b", ⟨0, 5⟩), ("c", ⟨6, 6⟩)], 4, []⟩ :
            DebounceDataInner).debounced_events 8).2.d) ∧
    ((∀ ev ∈ ((⟨[("a", ⟨0, 0⟩), ("b", ⟨0, 5⟩), ("c", ⟨6, 6⟩)], 4, []⟩ :
            DebounceDataInner).debounced_events 8).1, ev.path ≠ "c") ∧
      ("c", (⟨6, 6⟩ : EventData)) ∈
        ((⟨[("a", ⟨0, 0⟩), ("b", ⟨0, 5⟩), ("c", ⟨6, 6⟩)], 4, []⟩ :
            DebounceDataInner).debounced_events 8).2.d) ∧
    (((⟨[("a", ⟨0, 0⟩), ("b", ⟨0, 5⟩), ("c", ⟨6, 6⟩)], 4, []⟩ :
        DebounceDataInner).debounced_events 8).1.map DebouncedEvent.path).Nodup := by
  have ha := debounced_events_spec
    ⟨[("a", ⟨0, 0⟩), ("b", ⟨0, 5⟩), ("c", ⟨6, 6⟩)], 4, []⟩ 8
    (by decide) "a" ⟨0, 0⟩ (by decide)
  have hb := debounced_events_spec
    ⟨[("a", ⟨0, 0⟩), ("b", ⟨0, 5⟩), ("c", ⟨6, 6⟩)], 4, []⟩ 8
    (by decide) "b" ⟨0, 5⟩ (by decide)
  have hc := debounced_events_spec
    ⟨[("a", ⟨0, 0⟩), ("b", ⟨0, 5⟩), ("c", ⟨6, 6⟩)], 4, []⟩ 8
    (by decide) "c" ⟨6, 6⟩ (by decide)
  exact ⟨ha.1.1 (by decide), hb.1.2.1 (by decide) (by decide),
    hc.1.2.2 (by decide) (by decide), ha.2⟩

/-- C2: for every raw event and every path it names, `add_event` refreshes
the existing entry's update timestamp to `now` while leaving its insert
timestamp unchanged if the path is already in the map, and otherwise
inserts a fresh entry with `insert = update = now`; it affects no path not
named by the event (and, being a total function, never fails). -/
theorem add_event_spec (st : DebounceDataInner) (now : Nat)
    (paths : List Path) :
    (∀ q, q ∉ paths →
        lookupPath q (st.add_event now paths).d = lookupPath q st.d) ∧
    (∀ p ∈ paths,
        (∀ v, lookupPath p st.d = some v →
            lookupPath p (st.add_event now paths).d =
              some { insert := v.insert, update := now }) ∧
        (lookupPath p st.d = none →
            lookupPath p (st.add_event now paths).d =
              some (EventData.new_any now))) := by
  constructor
  · intro q hq
    exact lookupPath_foldl_not_mem now paths st.d q hq
  · intro p hp
    constructor
    · intro v hv
      have h := lookupPath_foldl_mem now paths st.d p hp
      rw [hv] at h
      simpa using h
    · intro hv
      have h := lookupPath_foldl_mem now paths st.d p hp
      rw [hv] at h
      simpa [EventData.new_any] using h

/-- Closed-instance check of `add_event_spec`: a raw event naming the
existing path "a" and the fresh path "b" at instant 7 refreshes "a",
inserts "b", and leaves the unnamed path "c" untouched. -/
theorem add_event_spec_witness :
    lookupPath "a"
        ((⟨[("a", ⟨1, 2⟩), ("c", ⟨3, 3⟩)], 9, []⟩ :
            DebounceDataInner).add_event 7 ["a", "b"]).d =
      some ⟨1, 7⟩ ∧
    lookupPath "b"
        ((⟨[("a", ⟨1, 2⟩), ("c", ⟨3, 3⟩)], 9, []⟩ :
            DebounceDataInner).add_event 7 ["a", "b"]).d =
      some ⟨7, 7⟩ ∧
    lookupPath "c"
        ((⟨[("a", ⟨1, 2⟩), ("c", ⟨3, 3⟩)], 9, []⟩ :
            DebounceDataInner).add_event 7 ["a", "b"]).d =
      lookupPath "c" [("a", (⟨1, 2⟩ : EventData)), ("c", ⟨3, 3⟩)] := by
  have h := add_event_spec ⟨[("a", ⟨1, 2⟩), ("c", ⟨3, 3⟩)], 9, []⟩ 7 ["a", "b"]
  refine ⟨?_, ?_, ?_⟩
  · exact (h.2 "a" (by decide)).1 ⟨1, 2⟩ (by decide)
  · exact (h.2 "b" (by decide)).2 (by decide)
  · exact h.1 "c" (by decide)

/-- C3: `new_debouncer_opt` with a supplied tick rate returns a
configuration error if and only if the tick rate exceeds the timeout; a
tick rate equal to the timeout is accepted and yields the debouncer (so in
the failing case no debouncer is constructed and the ticker thread is never
spawned). -/
theorem new_debouncer_opt_tick_rate_spec (timeout v : Nat) :
    ((∃ msg, new_debouncer_opt timeout (some v) = Except.error msg) ↔
      timeout < v) ∧
    (v ≤ timeout →
        new_debouncer_opt timeout (some v) =
          Except.ok
            { stop := false
              threadSpawned := true
              tick := v
              store := { d := [], timeout := timeout, e := [] } }) := by
  constructor
  · constructor
    · rintro ⟨msg, hmsg⟩
      by_contra hlt
      simp [new_debouncer_opt, computeTick, hlt] at hmsg
    · intro hlt
      refine ⟨"Invalid tick_rate, tick rate greater than timeout", ?_⟩
      simp [new_debouncer_opt, computeTick, hlt]
  · intro hle
    have hnlt : ¬ timeout < v := not_lt.mpr hle
    simp [new_debouncer_opt, computeTick, hnlt]

/-- Closed-instance check of `new_debouncer_opt_tick_rate_spec`: a tick
rate of 5 against a timeout of 4 is rejected, a tick rate of 4 against a
timeout of 4 is accepted. -/
theorem new_debouncer_opt_tick_rate_spec_witness :
    (∃ msg, new_debouncer_opt 4 (some 5) = Except.error msg) ∧
    new_debouncer_opt 4 (some 4) =
      Except.ok
        { stop := false
          threadSpawned := true
          tick := 4
          store := { d := [], timeout := 4, e := [] } } :=
  ⟨(new_debouncer_opt_tick_rate_spec 4 5).1.mpr (by decide),
    (new_debouncer_opt_tick_rate_spec 4 4).2 (by decide)⟩

/-- C4: when the tick rate is omitted, construction uses
`tick = timeout / 4` (`tick_div = 4`), and fails with a configuration
error exactly when `checked_div` cannot represent the division, which for
the fixed nonzero divisor 4 never happens. -/
theorem new_debouncer_opt_default_tick_spec (timeout : Nat) :
    new_debouncer_opt timeout none =
      Except.ok
        { stop := false
          threadSpawned := true
          tick := timeout / 4
          store := { d := [], timeout := timeout, e := [] } } ∧
    ((∃ msg, new_debouncer_opt timeout none = Except.error msg) ↔
      checked_div timeout tick_div = none) := by
  have hdiv : checked_div timeout tick_div = some (timeout / 4) := by
    simp [checked_div, tick_div]
  constructor
  · simp [new_debouncer_opt, computeTick, hdiv]
  · constructor
    · rintro ⟨msg, hmsg⟩
      simp [new_debouncer_opt, computeTick, hdiv] at hmsg
    · intro hcontra
      rw [hdiv] at hcontra
      simp at hcontra

/-- Closed-instance check of `new_debouncer_opt_default_tick_spec` at
timeout 8: the derived tick is 2. -/
theorem new_debouncer_opt_default_tick_spec_witness :
    new_debouncer_opt 8 none =
      Except.ok
        { stop := false
          threadSpawned := true
          tick := 2
          store := { d := [], timeout := 8, e := [] } } :=
  (new_debouncer_opt_default_tick_spec 8).1

/-- Helper: folding `add_error` appends the errors to the queue in order. -/
theorem foldl_add_error_e (st : DebounceDataInner) (l : List Err) :
    (l.foldl DebounceDataInner.add_error st).e = st.e ++ l := by
  induction l generalizing st with
  | nil => simp
  | cons x t ih =>
    simp only [List.foldl_cons]
    rw [ih]
    simp [DebounceDataInner.add_error]

/-- C5: after a sequence of `add_error` calls starting from an empty error
queue, one `errors()` call returns exactly those errors in insertion order
and leaves the queue empty, so an immediately following `errors()` call
returns the empty list. -/
theorem errors_spec (st : DebounceDataInner) (es : List Err) (h : st.e = []) :
    ((es.foldl DebounceDataInner.add_error st).errors).1 = es ∧
    ((es.foldl DebounceDataInner.add_error st).errors).2.e = [] ∧
    ((((es.foldl DebounceDataInner.add_error st).errors).2).errors).1 = [] := by
  refine ⟨?_, rfl, rfl⟩
  show (es.foldl DebounceDataInner.add_error st).e = es
  rw [foldl_add_error_e, h, List.nil_append]

/-- Closed-instance check of `errors_spec`: two buffered errors are drained
in insertion order and the queue is empty afterwards. -/
theorem errors_spec_witness :
    ((["e1", "e2"].foldl DebounceDataInner.add_error
        (⟨[], 4, []⟩ : DebounceDataInner)).errors).1 = ["e1", "e2"] ∧
    ((["e1", "e2"].foldl DebounceDataInner.add_error
        (⟨[], 4, []⟩ : DebounceDataInner)).errors).2.e = [] ∧
    ((((["e1", "e2"].foldl DebounceDataInner.add_error
        (⟨[], 4, []⟩ : DebounceDataInner)).errors).2).errors).1 = [] :=
  errors_spec ⟨[], 4, []⟩ ["e1", "e2"] rfl

/-- C6: on each tick the consumer is invoked with the event batch only if
it is non-empty and with the error batch only if it is non-empty, as
separate calls with every event call before every error call; no empty
batch is ever handed out, and at most two calls happen per tick. -/
theorem tick_dispatch_spec (now : Nat) (st : DebounceDataInner) :
    (∀ evs, Except.ok evs ∈ (tickOnce now st).1 →
        evs ≠ [] ∧ evs = (st.debounced_events now).1) ∧
    (∀ ers, Except.error ers ∈ (tickOnce now st).1 → ers ≠ [] ∧ ers = st.e) ∧
    ((st.debounced_events now).1 ≠ [] →
        Except.ok (st.debounced_events now).1 ∈ (tickOnce now st).1) ∧
    (st.e ≠ [] → Except.error st.e ∈ (tickOnce now st).1) ∧
    (tickOnce now st).1 =
      ((tickOnce now st).1.filter (fun c => c.isOk)) ++
        ((tickOnce now st).1.filter (fun c => !c.isOk)) ∧
    ((tickOnce now st).1).length ≤ 2 := by
  have hcalls : (tickOnce now st).1 =
      tickDispatch (st.debounced_events now).1 st.e := rfl
  by_cases hev : (st.debounced_events now).1 = []
  · by_cases her : st.e = []
    · rw [hcalls]
      simp [tickDispatch, hev, her]
    · rw [hcalls]
      simp only [tickDispatch, hev]
      have hlen : 0 < st.e.length := List.length_pos.mpr her
      simp [hlen, her, List.filter, Except.isOk, Except.toBool]
    -- remaining cases below
  · by_cases her : st.e = []
    · rw [hcalls]
      simp only [tickDispatch, her]
      have hlen : 0 < (st.debounced_events now).1.length :=
        List.length_pos.mpr hev
      simp [hlen, hev, List.filter, Except.isOk, Except.toBool]
    · rw [hcalls]
      simp only [tickDispatch]
      have hlen1 : 0 < (st.debounced_events now).1.length :=
        List.length_pos.mpr hev
      have hlen2 : 0 < st.e.length := List.length_pos.mpr her
      simp [hlen1, hlen2, hev, her, List.filter, Except.isOk, Except.toBool]

/-- Closed-instance check of `tick_dispatch_spec`: with one expired path
and one buffered error, the tick performs the event call and the error
call. -/
theorem tick_dispatch_spec_witness :
    Except.ok ((((⟨[("a", ⟨0, 0⟩)], 1, ["err"]⟩ :
          DebounceDataInner)).debounced_events 5).1) ∈
      (tickOnce 5 (⟨[("a", ⟨0, 0⟩)], 1, ["err"]⟩ : DebounceDataInner)).1 ∧
    Except.error ["err"] ∈
      (tickOnce 5 (⟨[("a", ⟨0, 0⟩)], 1, ["err"]⟩ : DebounceDataInner)).1 :=
  ⟨(tick_dispatch_spec 5 ⟨[("a", ⟨0, 0⟩)], 1, ["err"]⟩).2.2.1 (by decide),
    (tick_dispatch_spec 5 ⟨[("a", ⟨0, 0⟩)], 1, ["err"]⟩).2.2.2.1 (by decide)⟩

/-- Helper: a transition never clears the stop flag. -/
theorem step_stop_persists {s : SysState} {l : List DebouncedEvents}
    {s' : SysState} (h : Step s l s') (hs : s.stop = true) : s'.stop = true := by
  cases h <;> simp_all

/-- Helper: with the stop flag set, the check at the top of the loop
exits. -/
theorem step_checking_exits {s : SysState} {l : List DebouncedEvents}
    {s' : SysState} (h : Step s l s') (hs : s.stop = true)
    (hp : s.phase = Phase.checking) : s'.phase = Phase.exited := by
  cases h <;> simp_all

/-- Helper: from the sleeping phase the thread always returns to the
check. -/
theorem step_sleeping_checks {s : SysState} {l : List DebouncedEvents}
    {s' : SysState} (h : Step s l s') (hp : s.phase = Phase.sleeping) :
    s'.phase = Phase.checking := by
  cases h <;> simp_all

/-- Helper: every transition starts from the check or from the sleep. -/
theorem step_source_phase {s : SysState} {l : List DebouncedEvents}
    {s' : SysState} (h : Step s l s') :
    s.phase = Phase.checking ∨ s.phase = Phase.sleeping := by
  cases h <;> simp

/-- Helper: the exited phase has no outgoing transition, so nothing more is
dispatched after the loop breaks. -/
theorem no_step_from_exited {s : SysState} {l : List DebouncedEvents}
    {s' : SysState} (h : Step s l s') : s.phase ≠ Phase.exited := by
  cases h <;> simp_all

/-- C7: `stop()` sets the stop flag and joins the ticker thread; once the
flag is set the thread exits within at most two further transitions (one
pending tick plus the check), and from the exited state no transition —
hence no consumer invocation — is possible, so no consumer invocation
occurs after the join returns. -/
theorem stop_spec (s0 s1 s2 : SysState) (l1 l2 : List DebouncedEvents)
    (h1 : Step (set_stop s0) l1 s1) (h2 : Step s1 l2 s2) :
    (set_stop s0).stop = true ∧ s2.phase = Phase.exited ∧
      ∀ l3 s3, ¬ Step s2 l3 s3 := by
  refine ⟨rfl, ?_⟩
  have hs0 : (set_stop s0).stop = true := rfl
  have hs1 : s1.stop = true := step_stop_persists h1 hs0
  rcases step_source_phase h1 with hp | hp
  · have : s1.phase = Phase.exited := step_checking_exits h1 hs0 hp
    exact absurd this (no_step_from_exited h2)
  · have hs1p : s1.phase = Phase.checking := step_sleeping_checks h1 hp
    have hs2 : s2.phase = Phase.exited := step_checking_exits h2 hs1 hs1p
    exact ⟨hs2, fun l3 s3 hstep => no_step_from_exited hstep hs2⟩

/-- Closed-instance check of `stop_spec`: stopping a sleeping ticker over
an empty store lets it dispatch once and exit, after which no further
transition fires. -/
theorem stop_spec_witness :
    (set_stop ⟨false, Phase.sleeping, ⟨[], 0, []⟩⟩).stop = true ∧
    (⟨true, Phase.exited, ⟨[], 0, []⟩⟩ : SysState).phase = Phase.exited ∧
    ¬ Step ⟨true, Phase.exited, ⟨[], 0, []⟩⟩ []
        ⟨true, Phase.exited, ⟨[], 0, []⟩⟩ := by
  have h := stop_spec ⟨false, Phase.sleeping, ⟨[], 0, []⟩⟩
    ⟨true, Phase.checking, ⟨[], 0, []⟩⟩ ⟨true, Phase.exited, ⟨[], 0, []⟩⟩
    (tickOnce 0 ⟨[], 0, []⟩).1 []
    (Step.wake true ⟨[], 0, []⟩ 0) (Step.exit ⟨[], 0, []⟩)
  exact ⟨h.1, h.2.1, h.2.2 [] ⟨true, Phase.exited, ⟨[], 0, []⟩⟩⟩

/-- C8: `stop_nonblocking` and the implicit `Drop` teardown both set the
shared stop flag to true and return without joining: the thread's phase
and the shared store are left untouched, and no exit of the thread is
awaited. -/
theorem stop_nonblocking_drop_spec (s : SysState) :
    (stop_nonblocking s).stop = true ∧ (drop_debouncer s).stop = true ∧
    (stop_nonblocking s).phase = s.phase ∧ (drop_debouncer s).phase = s.phase ∧
    (stop_nonblocking s).store = s.store ∧ (drop_debouncer s).store = s.store :=
  ⟨rfl, rfl, rfl, rfl, rfl, rfl⟩

/-- C9: every store operation preserves the invariant `insert ≤ update`:
a fresh entry starts with both timestamps equal, `add_event` only moves the
update timestamp forward (given a monotone clock), and `debounced_events`
does not modify the timestamps of retained entries. -/
theorem store_inv_spec (st : DebounceDataInner) (now : Nat)
    (paths : List Path) (hinv : StoreInv st.d)
    (hmono : ∀ kv ∈ st.d, kv.2.update ≤ now) :
    (EventData.new_any now).insert ≤ (EventData.new_any now).update ∧
    StoreInv (st.add_event now paths).d ∧
    StoreInv ((st.debounced_events now).2.d) := by
  refine ⟨le_refl _, ?_, ?_⟩
  · intro kv hkv
    have hpre : ∀ kv ∈ st.d, kv.2.insert ≤ kv.2.update ∧ kv.2.insert ≤ now := by
      intro kv0 h0
      exact ⟨hinv kv0 h0, le_trans (hinv kv0 h0) (hmono kv0 h0)⟩
    exact (foldl_addPath_bounded now paths st.d hpre kv hkv).1
  · intro kv hkv
    exact hinv kv
      ((debouncedEventsList_retained_sublist now st.timeout st.d).subset hkv)

/-- Closed-instance check of `store_inv_spec`: refreshing path "a" and
inserting path "b" at instant 3 keeps the invariant, as does a tick. -/
theorem store_inv_spec_witness :
    StoreInv (((⟨[("a", ⟨1, 2⟩)], 5, []⟩ :
        DebounceDataInner).add_event 3 ["a", "b"]).d) ∧
    StoreInv ((((⟨[("a", ⟨1, 2⟩)], 5, []⟩ :
        DebounceDataInner).debounced_events 3).2).d) := by
  have h := store_inv_spec ⟨[("a", ⟨1, 2⟩)], 5, []⟩ 3 ["a", "b"]
    (by simp [StoreInv]) (by simp)
  exact ⟨h.2.1, h.2.2⟩

/-- C10: each store operation modifies only its own field of the shared
state: `add_event` and `debounced_events` touch only the path map,
`add_error` and `errors` touch only the error queue, and no operation ever
changes the configured timeout. -/
theorem frame_spec (st : DebounceDataInner) (now : Nat) (paths : List Path)
    (err : Err) :
    (st.add_event now paths).timeout = st.timeout ∧
    (st.add_event now paths).e = st.e ∧
    ((st.debounced_events now).2).timeout = st.timeout ∧
    ((st.debounced_events now).2).e = st.e ∧
    (st.add_error err).timeout = st.timeout ∧
    (st.add_error err).d = st.d ∧
    (st.errors).2.timeout = st.timeout ∧
    (st.errors).2.d = st.d :=
  ⟨rfl, rfl, rfl, rfl, rfl, rfl, rfl, rfl⟩

end NotifyDebouncerMini
